import Mathlib

/-!
Shallow embedding of the core of the seo-snake crawler
(`crawler_async.py`, `crawler_spider.py`) and proofs about it.

Network effects are abstracted: each network operation's outcome
(an HTTP status or a transport exception) is a parameter of the
embedded function, so the pure control flow of the Python code is
modelled faithfully.  Python string primitives are modelled as
executable functions on the underlying character lists, so that
concrete instances evaluate by `decide`.
-/

namespace SeoSnake

/-! ## Python string primitives -/

/-- Python `s.startswith(pre)` (on code points). -/
def pyStartsWith (s pre : String) : Bool :=
  pre.data.isPrefixOf s.data

/-- Python `s.lower()` (ASCII range, which covers every use in the code). -/
def pyLower (s : String) : String :=
  ⟨s.data.map Char.toLower⟩

/-- Python whitespace recognised by `str.strip()` (the characters that
occur in the crawler's inputs). -/
def pyIsSpace (c : Char) : Bool :=
  c == ' ' || c == '\t' || c == '\n' || c == '\r'

/-- Python `s.strip()`. -/
def pyStrip (s : String) : String :=
  ⟨(s.data.dropWhile pyIsSpace).reverse.dropWhile pyIsSpace |>.reverse⟩

/-- Helper for `pySplitOnceChar`: scan for the first occurrence of `sep`,
accumulating the characters before it. -/
def splitOnceAux (sep : Char) : List Char → List Char → Option (List Char × List Char)
  | [], _ => none
  | c :: rest, acc => if c == sep then some (acc.reverse, rest) else splitOnceAux sep rest (c :: acc)

/-- Python `s.split(sep, 1)` for a one-character separator: `none` when
the separator does not occur (the resulting list has one element, so
indexing `[1]` would raise), otherwise the parts before and after the
first occurrence. -/
def pySplitOnceChar (s : String) (sep : Char) : Option (String × String) :=
  match splitOnceAux sep s.data [] with
  | none => none
  | some (l, r) => some (⟨l⟩, ⟨r⟩)

/-- Python `s.partition(sep)` for a one-character separator, keeping only
the before/after parts: when the separator does not occur, Python
returns `(s, "", "")`, i.e. `after = ""`. -/
def pyPartitionChar (s : String) (sep : Char) : String × String :=
  match pySplitOnceChar s sep with
  | none => (s, "")
  | some (l, r) => (l, r)

/-- Split a character list on `'\n'`. -/
def splitLinesAux : List Char → List Char → List String
  | [], acc => [⟨acc.reverse⟩]
  | c :: rest, acc =>
    if c == '\n' then ⟨acc.reverse⟩ :: splitLinesAux rest []
    else splitLinesAux rest (c :: acc)

/-- Python `s.splitlines()` for `'\n'`-separated text: a trailing newline
does not produce a final empty line, and `"".splitlines() == []`. -/
def pySplitlines (s : String) : List String :=
  match s.data with
  | [] => []
  | l =>
    let parts := splitLinesAux l []
    if parts.getLast? = some "" then parts.dropLast else parts

/-- Python `sub in s` for a one-character `sub`. -/
def pyContainsChar (s : String) (c : Char) : Bool :=
  s.data.contains c

/-! ## Broken-link probe (`check_link`, crawler_async.py lines 121-145) -/

/-- Outcome of one HTTP probe: a received status code, or a transport
exception raised by the request. -/
inductive ProbeResult where
  | ok (status : Nat)
  | exc
deriving DecidableEq, Repr

/-- The health test used by `check_link`:
`200 <= resp.status < 400 or resp.status == 429`. -/
def linkHealthy (status : Nat) : Bool :=
  decide (200 ≤ status ∧ status < 400) || status == 429

/-- Embedding of `check_link` (crawler_async.py lines 121-145).
`headResp` is the outcome of the HEAD request and `getResp` the outcome
of the GET request (issued by the code only when the HEAD request raises
an exception).  Returns `none` when the link is considered healthy and
`some link` when it is reported broken. -/
def check_link (link : String) (headResp getResp : ProbeResult) : Option String :=
  match headResp with
  | .ok s => if linkHealthy s then none else some link
  | .exc =>
    match getResp with
    | .ok s => if linkHealthy s then none else some link
    | .exc => some link

/-- The probe behaviour that the specification describes: retry with GET
both on a transport exception *and* on an unhealthy HEAD status.
(Written from the spec's words, to be compared with `check_link`.) -/
def check_link_specified (link : String) (headResp getResp : ProbeResult) : Option String :=
  let getFallback :=
    match getResp with
    | .ok s => if linkHealthy s then none else some link
    | .exc => some link
  match headResp with
  | .ok s => if linkHealthy s then none else getFallback
  | .exc => getFallback

/-! ## Fetch with retry (`fetch`, crawler_async.py lines 68-78) -/

/-- Result fields of a successful `session.get` + `r.text()`. -/
structure FetchSuccess where
  status : Nat
  body : String
  headers : List (String × String)
deriving DecidableEq, Repr

/-- Outcome of one fetch attempt: a received response, or an exception
(with its message) raised anywhere in the attempt. -/
inductive AttemptOutcome where
  | ok (status : Nat) (body : String) (headers : List (String × String))
  | exc (e : String)
deriving DecidableEq, Repr

/-- The loop of `fetch` (crawler_async.py lines 70-77): `remaining`
attempts are left, the next one has 0-based index `attempt`, `lastExc`
is the `last_exc` variable and `sleeps` accumulates the backoff
durations (in seconds) passed to `asyncio.sleep`.  Returns the raised
`last_exc` (`none` models `raise None` when `retries = 0`) or the first
received response, together with the sleeps performed. -/
def fetchAux (oracle : Nat → AttemptOutcome) :
    Nat → Nat → Option String → List ℚ → Except (Option String) FetchSuccess × List ℚ
  | 0, _, lastExc, sleeps => (Except.error lastExc, sleeps)
  | remaining + 1, attempt, _, sleeps =>
    match oracle attempt with
    | .ok s b h => (Except.ok ⟨s, b, h⟩, sleeps)
    | .exc e =>
      fetchAux oracle remaining (attempt + 1) (some e)
        (sleeps ++ [(3 / 2 : ℚ) * ((attempt : ℚ) + 1)])

/-- Embedding of `fetch(session, url, retries)` (crawler_async.py lines
68-78): `oracle i` is the outcome of attempt number `i` for this URL. -/
def fetch (oracle : Nat → AttemptOutcome) (retries : Nat) :
    Except (Option String) FetchSuccess × List ℚ :=
  fetchAux oracle retries 0 none []

/-- The backoff schedule of `fetch`: the sleeps performed after `k`
consecutive transport failures starting at 0-based attempt index `a`:
1.5 seconds times the 1-based attempt number. -/
def sleepSched (a k : Nat) : List ℚ :=
  (List.range k).map fun (j : Nat) => (3 / 2 : ℚ) * (((a + j + 1 : Nat) : ℚ))

/-! ## Robots verdict (`check_robots`, crawler_async.py lines 107-110) -/

/-- Embedding of `max((x for x in rules if path.startswith(x)), default="", key=len)`:
Python's `max` scans left to right and replaces the candidate only on a
strictly greater key, which the fold from `""` reproduces. -/
def best_match (path : String) (rules : List String) : String :=
  (rules.filter fun r => pyStartsWith path r).foldl
    (fun acc r => if acc.length < r.length then r else acc) ""

/-- Embedding of the verdict computation of `check_robots`
(crawler_async.py line 110): `"Allowed" if len(best_a) >= len(best_d)
else "Disallowed"`, applied to the already URL-decoded path. -/
def check_robots_verdict (allow dis : List String) (path : String) : String :=
  if (best_match path dis).length ≤ (best_match path allow).length then "Allowed"
  else "Disallowed"

/-- Length of the longest rule in `rules` that is a prefix of `path`
(0 when no rule matches): the quantity the specification's
longest-matching-prefix tie-break is stated in terms of. -/
def maxMatchLen (rules : List String) (path : String) : Nat :=
  (rules.filter fun r => pyStartsWith path r).foldl (fun n r => max n r.length) 0

/-! ## Robots parsing (`check_robots`, crawler_async.py lines 80-110) -/

/-- One iteration of the parsing loop of `check_robots` (crawler_async.py
lines 91-105) on state `(ua, allow, dis)`.  Returns `none` when the line
raises: a line whose lowercase form starts with `user-agent` but which
contains no colon makes `line.split(":", 1)[1]` raise `IndexError`. -/
def processRobotsLine (st : Bool × List String × List String) (rawLine : String) :
    Option (Bool × List String × List String) :=
  let line := pyStrip rawLine
  let ua := st.1
  let allow := st.2.1
  let dis := st.2.2
  if line == "" || pyStartsWith line "#" then some st
  else if pyStartsWith (pyLower line) "user-agent" then
    match pySplitOnceChar line ':' with
    | none => none
    | some (_, after) => some (pyContainsChar after '*', allow, dis)
  else if !ua then some st
  else
    let p := pyPartitionChar line ':'
    let d := pyStrip (pyLower p.1)
    let val := pyStrip p.2
    if d == "disallow" && val != "" then some (ua, allow, dis ++ [val])
    else if d == "allow" then some (ua, allow ++ [val], dis)
    else some st

/-- Embedding of the rule-collection loop of `check_robots`
(crawler_async.py lines 90-105): the `(allow, dis)` lists built from the
robots.txt body, or `none` when the loop raises. -/
def parse_robots_rules (txt : String) : Option (List String × List String) :=
  ((pySplitlines txt).foldlM processRobotsLine (false, [], [])).map fun st => (st.2.1, st.2.2)

/-- Classification of one stripped robots.txt line, following the words
of the specification: blank and comment lines, `User-agent` lines (with
their value, i.e. the text after the first colon), and directive lines
split into a lowercased key and a value. -/
inductive RobotsLine where
  | blank
  | comment
  | userAgent (value : String)
  | userAgentNoColon
  | directive (key value : String)
deriving DecidableEq, Repr

/-- Classify one raw robots.txt line per the specification's reading. -/
def classifyRobotsLine (rawLine : String) : RobotsLine :=
  let line := pyStrip rawLine
  if line == "" then .blank
  else if pyStartsWith line "#" then .comment
  else if pyStartsWith (pyLower line) "user-agent" then
    match pySplitOnceChar line ':' with
    | none => .userAgentNoColon
    | some (_, v) => .userAgent v
  else
    let p := pyPartitionChar line ':'
    .directive (pyStrip (pyLower p.1)) (pyStrip p.2)

/-- Rule collection as the specification words it, parameterised by the
predicate deciding whether a `User-agent` value makes the block apply:
within an applicable block, `Disallow` values are collected only when
non-empty and `Allow` values always; other lines are ignored. -/
def collectRules (uaApplies : String → Bool) :
    List RobotsLine → Bool → List String × List String → Option (List String × List String)
  | [], _, acc => some acc
  | .blank :: rest, ua, acc => collectRules uaApplies rest ua acc
  | .comment :: rest, ua, acc => collectRules uaApplies rest ua acc
  | .userAgent v :: rest, _, acc => collectRules uaApplies rest (uaApplies v) acc
  | .userAgentNoColon :: _, _, _ => none
  | .directive k v :: rest, ua, acc =>
    if !ua then collectRules uaApplies rest ua acc
    else if k == "disallow" && v != "" then collectRules uaApplies rest ua (acc.1, acc.2 ++ [v])
    else if k == "allow" then collectRules uaApplies rest ua (acc.1 ++ [v], acc.2)
    else collectRules uaApplies rest ua acc

/-- The parser the claim describes: a user-agent block applies exactly
when the (stripped) value of its `User-agent:` line equals `"*"`.
(Written from the claim's words, to be compared with
`parse_robots_rules`.) -/
def parse_robots_claimed (txt : String) : Option (List String × List String) :=
  collectRules (fun v => pyStrip v == "*") ((pySplitlines txt).map classifyRobotsLine)
    false ([], [])

/-- The amended parser: a user-agent block applies exactly when the text
after the colon of its `User-agent:` line contains the character `*`. -/
def parse_robots_amended (txt : String) : Option (List String × List String) :=
  collectRules (fun v => pyContainsChar v '*') ((pySplitlines txt).map classifyRobotsLine)
    false ([], [])

/-- Embedding of `check_robots` (crawler_async.py lines 80-110), given
the outcome of fetching `robots.txt` and the URL-decoded page path.
Returns `none` when the body raises during parsing (the exception is
not caught), else the verdict string. -/
def check_robots (fetchResult : Except (Option String) FetchSuccess) (decodedPath : String) :
    Option String :=
  match fetchResult with
  | .error _ => some "robots.txt error"
  | .ok r =>
    if pyStartsWith (pyLower r.body) "404" then some "robots.txt not found"
    else
      match parse_robots_rules r.body with
      | none => none
      | some rules => some (check_robots_verdict rules.1 rules.2 decodedPath)

/-! ## Domain spider (`crawl_domain`, crawler_spider.py lines 39-73) -/

/-- Embedding of `strip_www` (crawler_spider.py lines 17-18). -/
def strip_www (hostname : String) : String :=
  if pyStartsWith hostname "www." then ⟨hostname.data.drop 4⟩ else hostname

/-- The environment of one `crawl_domain` run: `netlocOf` abstracts
`urlparse(url).netloc`, `fetchOk` whether `fetch` returns HTML for a
URL (status 200 and text/html content type), `links` the candidate
links of a page after `urljoin`/`urldefrag`/`rstrip("/")` resolution in
document order, and the host values and page budget computed before the
loop (`base_netloc`, `exact_netloc`, `max_urls`). -/
structure SpiderEnv where
  netlocOf : String → String
  fetchOk : String → Bool
  links : String → List String
  baseNetloc : String
  exactNetloc : String
  maxUrls : Nat

/-- The loop state of `crawl_domain`: `visited`, `to_visit` and
`all_internal_urls` (all Python sets). -/
structure SpiderState where
  visited : Finset String
  to_visit : Finset String
  internal : Finset String
deriving DecidableEq

/-- The state before the loop (crawler_spider.py lines 46-48): empty
`visited`, the frontier seeded with the domain root, empty result. -/
def initState (domainRoot : String) : SpiderState :=
  ⟨∅, {domainRoot}, ∅⟩

/-- The inner `for` loop over a page's links (crawler_spider.py lines
64-72): each candidate is added to `to_visit` when its www-stripped host
equals `base_netloc`, it is not in `visited`, and
`len(visited) + len(to_visit) < max_urls` at that moment. -/
def enqueueLinks (env : SpiderEnv) (visited : Finset String) (tv : Finset String)
    (ls : List String) : Finset String :=
  ls.foldl
    (fun acc l =>
      if strip_www (env.netlocOf l) = env.baseNetloc ∧ l ∉ visited ∧
          visited.card + acc.card < env.maxUrls
      then insert l acc else acc) tv

/-- One iteration of the `while` loop body (crawler_spider.py lines
53-72) after popping `u` from `to_visit`: skip if visited; else mark
visited; on fetch failure continue; else record in the internal set when
the exact host matches, and enqueue the page's links. -/
def stepResult (env : SpiderEnv) (s : SpiderState) (u : String) : SpiderState :=
  let tv1 := s.to_visit.erase u
  if u ∈ s.visited then ⟨s.visited, tv1, s.internal⟩
  else
    let visited1 := insert u s.visited
    if env.fetchOk u then
      let internal1 :=
        if env.netlocOf u = env.exactNetloc then insert u s.internal else s.internal
      ⟨visited1, enqueueLinks env visited1 tv1 (env.links u), internal1⟩
    else ⟨visited1, tv1, s.internal⟩

/-- The loop as a transition relation: a step pops an arbitrary element
of `to_visit` and may run only while the `while` guard
`to_visit and len(visited) < max_urls` holds. -/
inductive SpiderStep (env : SpiderEnv) : SpiderState → SpiderState → Prop where
  | pop (s : SpiderState) (u : String) (hu : u ∈ s.to_visit)
      (hcard : s.visited.card < env.maxUrls) :
      SpiderStep env s (stepResult env s u)

/-- The loop invariant of `crawl_domain`: the frontier sets are disjoint,
their total size never exceeds the page budget, the internal result set
is exactly the visited pages that fetched successfully with the exact
canonical host, and every frontier or visited URL is the root or has a
www-stripped host equal to the base host. -/
def SpiderInv (env : SpiderEnv) (root : String) (s : SpiderState) : Prop :=
  Disjoint s.visited s.to_visit ∧
  s.visited.card + s.to_visit.card ≤ env.maxUrls ∧
  s.internal = s.visited.filter
    (fun u => env.fetchOk u = true ∧ env.netlocOf u = env.exactNetloc) ∧
  (∀ l ∈ s.to_visit, l = root ∨ strip_www (env.netlocOf l) = env.baseNetloc) ∧
  (∀ l ∈ s.visited, l = root ∨ strip_www (env.netlocOf l) = env.baseNetloc)

/-- Termination measure for the loop: visited grows towards the budget,
and within one visited count the frontier shrinks. -/
def spiderMeasure (env : SpiderEnv) (s : SpiderState) : Nat :=
  (env.maxUrls - s.visited.card) * (env.maxUrls + 1) + s.to_visit.card

/-- A concrete spider environment for witnesses: the crawl starts at
`https://www.example.com` (exact host `www.example.com`), which links to
`https://example.com/page` (host `example.com`); every page fetches
successfully and the page budget is 5. -/
def demoEnv : SpiderEnv :=
  ⟨fun u => if u = "https://example.com/page" then "example.com" else "www.example.com",
   fun _ => true,
   fun u => if u = "https://www.example.com" then ["https://example.com/page"] else [],
   "example.com", "www.example.com", 5⟩

/-! ## Worker record (`worker`, crawler_async.py lines 189-216) -/

/-- The scheme normalisation at the top of `worker` (crawler_async.py
lines 190-191). -/
def normalize_scheme (url : String) : String :=
  if pyStartsWith url "http://" || pyStartsWith url "https://" then url else "https://" ++ url

/-- Python's rendering of the exception value interpolated into
`f"Error: {e}"` (a `raise None` renders as `None`). -/
def excText (e : Option String) : String :=
  match e with
  | some msg => msg
  | none => "None"

/-- The values produced by the analysis calls inside `worker`
(`check_noindex`, `check_robots`, `parse_page`, `detect_cms`,
`find_broken_links`); they are parameters here because the record
construction is what claim C2 is about.  `brokenLinks` is the rendered
broken-link summary value. -/
structure AnalysisResults where
  seoStatus : String
  robots : String
  title : String
  metaDesc : String
  h1 : String
  wc : Nat
  cms : String
  brokenLinks : String
deriving DecidableEq, Repr

/-- Embedding of `worker` (crawler_async.py lines 189-216) as the
association list of record fields it returns, in insertion order
(values rendered as strings; the word count is rendered with
`toString`).  The fetched status code is bound (`status_code`) but never
placed in the record; on fetch failure the record is the two-field error
shortcut. -/
def worker (url : String) (fetchResult : Except (Option String) FetchSuccess)
    (a : AnalysisResults) : List (String × String) :=
  let u := normalize_scheme url
  match fetchResult with
  | .error e => [("URL", u), ("Status", "Error: " ++ excText e)]
  | .ok _ =>
    [("URL", u), ("Status", a.seoStatus), ("Robots Policy", a.robots), ("Title", a.title),
     ("Meta Description", a.metaDesc), ("H1", a.h1), ("Wörter", toString a.wc),
     ("CMS", a.cms), ("Broken Links", a.brokenLinks)]

/-! ## Word count (`strip_html_for_wc` / `word_count`, crawler_async.py
lines 31-40)

HTML documents are modelled as the element trees produced by parsing:
a document is the list of top-level nodes, each node a text node or an
element with a tag and children.  `BeautifulSoup(html).head` is the
first `head` element in document (pre-)order; `soup(["script", "style",
"noscript", "template"])` decomposes every element with one of those
tags; `get_text(" ")` joins all text-node strings in document order
with single spaces. -/

/-- A parsed HTML node. -/
inductive Node where
  | text (s : String)
  | elem (tag : String) (children : List Node)

/-- The tags decomposed by `strip_html_for_wc` (crawler_async.py
line 35). -/
def specialTags : List String := ["script", "style", "noscript", "template"]

/-- All text-node strings of a document in document order
(BeautifulSoup's `.strings`). -/
def nodeStringsList : List Node → List String
  | [] => []
  | .text s :: rest => s :: nodeStringsList rest
  | .elem _ cs :: rest => nodeStringsList cs ++ nodeStringsList rest

/-- Whether a node list contains a `head` element anywhere. -/
def hasHead : List Node → Bool
  | [] => false
  | .text _ :: rest => hasHead rest
  | .elem t cs :: rest => t == "head" || hasHead cs || hasHead rest

/-- Model of `soup.head.decompose()`: remove the first `head` element in document
order, if any (crawler_async.py lines 33-34). -/
def removeFirstHead : List Node → List Node
  | [] => []
  | .text s :: rest => .text s :: removeFirstHead rest
  | .elem t cs :: rest =>
    if t == "head" then rest
    else if hasHead cs then .elem t (removeFirstHead cs) :: rest
    else .elem t cs :: removeFirstHead rest

/-- Model of `for t in soup(tags): t.decompose()`: remove every element whose tag
is in `tags`, everywhere in the tree (crawler_async.py lines 35-36). -/
def removeTagsList (tags : List String) : List Node → List Node
  | [] => []
  | .text s :: rest => .text s :: removeTagsList tags rest
  | .elem t cs :: rest =>
    if t ∈ tags then removeTagsList tags rest
    else .elem t (removeTagsList tags cs) :: removeTagsList tags rest

/-- Model of `re.sub(r"\s+", " ", s)`: collapse each maximal whitespace run to a
single space.  `prevSpace` records whether the previous character was
part of a whitespace run. -/
def collapseWsAux : Bool → List Char → List Char
  | _, [] => []
  | prevSpace, c :: rest =>
    if pyIsSpace c then
      if prevSpace then collapseWsAux true rest else ' ' :: collapseWsAux true rest
    else c :: collapseWsAux false rest

/-- Model of `re.sub(r"\s+", " ", s)` on a string. -/
def pyCollapseWs (s : String) : String :=
  ⟨collapseWsAux false s.data⟩

/-- Python `s.split()` (no separator): split on whitespace runs,
dropping empty tokens. -/
def pySplitWsAux : List Char → List Char → List String
  | [], acc => if acc.isEmpty then [] else [⟨acc.reverse⟩]
  | c :: rest, acc =>
    if pyIsSpace c then
      if acc.isEmpty then pySplitWsAux rest [] else ⟨acc.reverse⟩ :: pySplitWsAux rest []
    else pySplitWsAux rest (c :: acc)

/-- Python `s.split()`. -/
def pySplitWs (s : String) : List String :=
  pySplitWsAux s.data []

/-- Embedding of `strip_html_for_wc` (crawler_async.py lines 31-37) on a
parsed document: decompose the first head, decompose all
script/style/noscript/template elements, join the remaining text with
`" "`, collapse whitespace and strip. -/
def strip_html_for_wc (doc : List Node) : String :=
  pyStrip (pyCollapseWs (String.intercalate " "
    (nodeStringsList (removeTagsList specialTags (removeFirstHead doc)))))

/-- Embedding of `word_count` (crawler_async.py lines 39-40):
`len(strip_html_for_wc(html).split())`. -/
def word_count (doc : List Node) : Nat :=
  (pySplitWs (strip_html_for_wc doc)).length

/-- A text node. -/
def isTextNode : Node → Bool
  | .text _ => true
  | .elem _ _ => false

/-- Documents as produced by parsing real HTML have only raw text inside
`script`/`style`/`noscript`/`template` elements (the parser never nests
elements there). -/
def specialsTextOnly : List Node → Bool
  | [] => true
  | .text _ :: rest => specialsTextOnly rest
  | .elem t cs :: rest =>
    (if t ∈ specialTags then cs.all isTextNode else specialsTextOnly cs) &&
      specialsTextOnly rest

/-- Replace the text content of every
`script`/`style`/`noscript`/`template` element by an arbitrary new text
(`f` sees the tag and the old children): "injecting or removing
script/style text". -/
def mapSpecialText (f : String → List Node → String) : List Node → List Node
  | [] => []
  | .text s :: rest => .text s :: mapSpecialText f rest
  | .elem t cs :: rest =>
    if t ∈ specialTags then .elem t [.text (f t cs)] :: mapSpecialText f rest
    else .elem t (mapSpecialText f cs) :: mapSpecialText f rest

/-- Replace the children of the first `head` element (the head section)
by arbitrary new content. -/
def mapFirstHead (g : List Node → List Node) : List Node → List Node
  | [] => []
  | .text s :: rest => .text s :: mapFirstHead g rest
  | .elem t cs :: rest =>
    if t == "head" then .elem t (g cs) :: rest
    else if hasHead cs then .elem t (mapFirstHead g cs) :: rest
    else .elem t cs :: mapFirstHead g rest

/-- A small parsed document for the C9 witness: a head section, some
body text, and a script and a style element holding text. -/
def demoDoc : List Node :=
  [.elem "html"
    [.elem "head" [.elem "title" [.text "Page title"]],
     .elem "body"
       [.text "hello brave new world",
        .elem "script" [.text "var x = 1;"],
        .elem "style" [.text "bold red text"]]]]

lemma foldl_pick_length (l : List String) (acc : String) :
    ((l.foldl (fun a r => if a.length < r.length then r else a) acc)).length =
      l.foldl (fun n r => max n r.length) acc.length := by
  induction l generalizing acc with
  | nil => rfl
  | cons r l ih =>
    simp only [List.foldl_cons]
    rw [ih]
    congr 1
    by_cases h : acc.length < r.length
    · simp [h, Nat.max_eq_right (Nat.le_of_lt h)]
    · simp [h, Nat.max_eq_left (Nat.le_of_not_lt h)]

lemma best_match_length (path : String) (rules : List String) :
    (best_match path rules).length = maxMatchLen rules path := by
  have h := foldl_pick_length (rules.filter fun r => pyStartsWith path r) ""
  simpa [best_match, maxMatchLen] using h

lemma sleepSched_succ (a k : Nat) :
    sleepSched a (k + 1) =
      ((3 / 2 : ℚ) * ((a : ℚ) + 1)) :: sleepSched (a + 1) k := by
  unfold sleepSched
  rw [List.range_succ_eq_map, List.map_cons, List.map_map]
  refine congrArg₂ _ (by push_cast; ring) ?_
  refine List.map_congr_left fun j _ => ?_
  simp only [Function.comp_apply, Nat.succ_eq_add_one]
  have h : a + (j + 1) + 1 = a + 1 + j + 1 := by omega
  rw [h]

lemma sleepSched_one (a : Nat) :
    sleepSched a 1 = [(3 / 2 : ℚ) * ((a : ℚ) + 1)] := by
  rw [sleepSched_succ]
  rfl

lemma fetchAux_all_exc (oracle : Nat → AttemptOutcome) :
    ∀ (k a : Nat) (lastExc : Option String) (sleeps : List ℚ),
      (∀ j, a ≤ j → j < a + k → ∃ e, oracle j = .exc e) → 0 < k →
      ∃ e, oracle (a + k - 1) = .exc e ∧
        fetchAux oracle k a lastExc sleeps =
          (Except.error (some e), sleeps ++ sleepSched a k) := by
  intro k
  induction k with
  | zero => intro a lastExc sleeps _ h0; exact absurd h0 (by omega)
  | succ k ih =>
    intro a lastExc sleeps hexc _
    obtain ⟨e, he⟩ := hexc a (Nat.le_refl a) (by omega)
    rcases Nat.eq_zero_or_pos k with hk | hk
    · subst hk
      refine ⟨e, by simpa using he, ?_⟩
      simp only [fetchAux, he]
      rw [sleepSched_one]
    · obtain ⟨e', he', heq⟩ :=
        ih (a + 1) (some e) (sleeps ++ [(3 / 2 : ℚ) * ((a : ℚ) + 1)])
          (fun j hj1 hj2 => hexc j (by omega) (by omega)) hk
      refine ⟨e', by simpa [show a + 1 + k - 1 = a + (k + 1) - 1 by omega] using he', ?_⟩
      simp only [fetchAux, he]
      rw [heq, sleepSched_succ]
      simp

lemma fetchAux_first_ok (oracle : Nat → AttemptOutcome) (s : Nat) (b : String)
    (hd : List (String × String)) :
    ∀ (k a i : Nat) (lastExc : Option String) (sleeps : List ℚ),
      a ≤ i → i < a + k →
      (∀ j, a ≤ j → j < i → ∃ e, oracle j = .exc e) →
      oracle i = .ok s b hd →
      fetchAux oracle k a lastExc sleeps =
        (Except.ok ⟨s, b, hd⟩, sleeps ++ sleepSched a (i - a)) := by
  intro k
  induction k with
  | zero => intro a i lastExc sleeps h1 h2 _ _; exact absurd (h1.trans_lt h2) (by omega)
  | succ k ih =>
    intro a i lastExc sleeps h1 h2 hexc hok
    rcases Nat.eq_or_lt_of_le h1 with rfl | hlt
    · simp [fetchAux, hok, sleepSched]
    · obtain ⟨e, he⟩ := hexc a (Nat.le_refl a) hlt
      have heq := ih (a + 1) i (some e) (sleeps ++ [(3 / 2 : ℚ) * ((a : ℚ) + 1)])
        (by omega) (by omega) (fun j hj1 hj2 => hexc j (by omega) hj2) hok
      simp only [fetchAux, he]
      rw [heq]
      have hi : i - a = (i - (a + 1)) + 1 := by omega
      rw [hi, sleepSched_succ]
      simp

lemma processRobots_eq_collect (lines : List String) :
    ∀ (ua : Bool) (allow dis : List String),
      (lines.foldlM processRobotsLine (ua, allow, dis)).map (fun st => (st.2.1, st.2.2)) =
        collectRules (fun v => pyContainsChar v '*') (lines.map classifyRobotsLine)
          ua (allow, dis) := by
  induction lines with
  | nil => intro ua allow dis; rfl
  | cons rawLine rest ih =>
    intro ua allow dis
    simp only [List.foldlM_cons, List.map_cons]
    by_cases hblank : pyStrip rawLine == ""
    · simp [processRobotsLine, classifyRobotsLine, hblank, collectRules, ih]
    · by_cases hcomment : pyStartsWith (pyStrip rawLine) "#"
      · simp [processRobotsLine, classifyRobotsLine, hblank, hcomment, collectRules, ih]
      · by_cases hua : pyStartsWith (pyLower (pyStrip rawLine)) "user-agent"
        · rcases hsplit : pySplitOnceChar (pyStrip rawLine) ':' with _ | ⟨before, after⟩
          · simp [processRobotsLine, classifyRobotsLine, hblank, hcomment, hua, hsplit,
              collectRules]
          · simp [processRobotsLine, classifyRobotsLine, hblank, hcomment, hua, hsplit,
              collectRules, ih]
        · by_cases hskip : ua
          · by_cases hdis :
              pyStrip (pyLower (pyPartitionChar (pyStrip rawLine) ':').1) == "disallow" &&
                pyStrip (pyPartitionChar (pyStrip rawLine) ':').2 != ""
            · simp [processRobotsLine, classifyRobotsLine, hblank, hcomment, hua, hskip,
                hdis, collectRules, ih]
            · by_cases hall :
                pyStrip (pyLower (pyPartitionChar (pyStrip rawLine) ':').1) == "allow"
              · simp [processRobotsLine, classifyRobotsLine, hblank, hcomment, hua, hskip,
                  hdis, hall, collectRules, ih]
              · simp [processRobotsLine, classifyRobotsLine, hblank, hcomment, hua, hskip,
                  hdis, hall, collectRules, ih]
          · simp [processRobotsLine, classifyRobotsLine, hblank, hcomment, hua, hskip,
              collectRules, ih]

/-! ## Theorems for claims C1, C3, C4 -/

/-- C1 (counterexample): on a HEAD response with status 500 the checker
reports the link broken immediately, even though a GET retry would have
returned status 200; the behaviour the claim describes
(`check_link_specified`) would have declared the link healthy. -/
theorem check_link_head_unhealthy_not_retried_cex :
    check_link "https://example.com/a" (ProbeResult.ok 500) (ProbeResult.ok 200) =
      some "https://example.com/a" ∧
    check_link_specified "https://example.com/a" (ProbeResult.ok 500) (ProbeResult.ok 200) =
      none := by
  constructor <;> decide

/-- C1 (amended): the GET fallback runs only when the HEAD request raises
a transport exception; a HEAD status outside [200,400) and ≠ 429 reports
the link broken without any GET retry, and a link is healthy exactly
when HEAD returned a healthy status, or HEAD raised and GET returned a
healthy status.  In every other case the link itself is reported. -/
theorem check_link_get_only_on_head_exception (link : String) (hr gr : ProbeResult) :
    (check_link link hr gr = none ↔
      ((∃ s, hr = .ok s ∧ linkHealthy s = true) ∨
       (hr = .exc ∧ ∃ s, gr = .ok s ∧ linkHealthy s = true))) ∧
    (check_link link hr gr = none ∨ check_link link hr gr = some link) := by
  constructor
  · cases hr with
    | ok s =>
      by_cases hs : linkHealthy s <;> simp [check_link, hs]
    | exc =>
      cases gr with
      | ok s => by_cases hs : linkHealthy s <;> simp [check_link, hs]
      | exc => simp [check_link]
  · cases hr with
    | ok s => by_cases hs : linkHealthy s <;> simp [check_link, hs]
    | exc =>
      cases gr with
      | ok s => by_cases hs : linkHealthy s <;> simp [check_link, hs]
      | exc => simp [check_link]

/-- C3: the robots verdict is "Allowed" exactly when the longest matching
allow prefix is at least as long as the longest matching disallow prefix
(each side contributing length 0 when no rule matches), "Disallowed"
exactly when the longest disallow match is strictly longer, and a path
matching no rule on either side is "Allowed". -/
theorem check_robots_verdict_longest_match (allow dis : List String) (path : String) :
    (check_robots_verdict allow dis path = "Allowed" ↔
      maxMatchLen dis path ≤ maxMatchLen allow path) ∧
    (check_robots_verdict allow dis path = "Disallowed" ↔
      maxMatchLen allow path < maxMatchLen dis path) ∧
    ((∀ r ∈ allow, ¬ pyStartsWith path r = true) →
     (∀ r ∈ dis, ¬ pyStartsWith path r = true) →
      check_robots_verdict allow dis path = "Allowed") := by
  have hA := best_match_length path allow
  have hD := best_match_length path dis
  have hne : ("Allowed" : String) ≠ "Disallowed" := by decide
  unfold check_robots_verdict
  rw [hA, hD]
  refine ⟨?_, ?_, ?_⟩
  · by_cases h : maxMatchLen dis path ≤ maxMatchLen allow path <;> simp [h, hne]
  · by_cases h : maxMatchLen dis path ≤ maxMatchLen allow path <;>
      simp [h, hne] <;> omega
  · intro ha hd
    have h1 : maxMatchLen allow path = 0 := by
      unfold maxMatchLen
      rw [List.filter_eq_nil_iff.mpr (by simpa using ha)]
      rfl
    have h2 : maxMatchLen dis path = 0 := by
      unfold maxMatchLen
      rw [List.filter_eq_nil_iff.mpr (by simpa using hd)]
      rfl
    simp [h1, h2]

/-- C3 (witness): a path matching no rule on either side is "Allowed",
instantiated at allow = ["/a"], dis = ["/b"], path = "/x". -/
theorem check_robots_verdict_longest_match_witness :
    check_robots_verdict ["/a"] ["/b"] "/x" = "Allowed" := by
  have h := (check_robots_verdict_longest_match ["/a"] ["/b"] "/x").2.2
  apply h <;> decide

/-- C4: the fetch loop returns the first received HTTP response (whatever
its status code, so 4xx/5xx are returned, never retried), sleeping
`1.5 * attemptNumber` seconds after the `attemptNumber`-th transport
failure; when all `retries` attempts raise transport errors it surfaces
the last one to the caller. -/
theorem fetch_transport_retry_spec (oracle : Nat → AttemptOutcome) (retries : Nat) :
    (∀ i s b hd, i < retries → (∀ j, j < i → ∃ e, oracle j = .exc e) →
        oracle i = .ok s b hd →
        fetch oracle retries = (Except.ok ⟨s, b, hd⟩, sleepSched 0 i)) ∧
    (∀ e, 0 < retries → (∀ j, j < retries → ∃ e', oracle j = .exc e') →
        oracle (retries - 1) = .exc e →
        fetch oracle retries = (Except.error (some e), sleepSched 0 retries)) := by
  constructor
  · intro i s b hd hi hexc hok
    have h := fetchAux_first_ok oracle s b hd retries 0 i none []
      (Nat.zero_le i) (by omega) (fun j _ hj2 => hexc j hj2) hok
    rw [fetch, h]
    simp
  · intro e hpos hexc hlast
    obtain ⟨e', he', heq⟩ := fetchAux_all_exc oracle retries 0 none []
      (fun j _ hj2 => hexc j (by omega)) hpos
    have he'e : e' = e := by
      rw [Nat.zero_add] at he'
      rw [he'] at hlast
      exact AttemptOutcome.exc.inj hlast
    subst he'e
    rw [fetch, heq]
    simp

/-- C4 (witness): with attempt 0 raising a transport error and attempt 1
returning HTTP 404, `fetch` with 3 retries returns the 404 response
(not retried) after a single 1.5 s backoff sleep. -/
theorem fetch_transport_retry_spec_witness :
    fetch (fun j => if j = 0 then AttemptOutcome.exc "timeout" else AttemptOutcome.ok 404 "nf" []) 3 =
      (Except.ok ⟨404, "nf", []⟩, [(3 / 2 : ℚ)]) := by
  have h := (fetch_transport_retry_spec
      (fun j => if j = 0 then AttemptOutcome.exc "timeout" else AttemptOutcome.ok 404 "nf" []) 3).1
      1 404 "nf" [] (by omega)
      (fun j hj => ⟨"timeout", by have hj0 := Nat.lt_one_iff.mp hj; subst hj0; rfl⟩) rfl
  rw [h, sleepSched_one]
  norm_num

lemma check_robots_verdict_cases (allow dis : List String) (path : String) :
    check_robots_verdict allow dis path = "Allowed" ∨
      check_robots_verdict allow dis path = "Disallowed" := by
  unfold check_robots_verdict
  split
  · exact Or.inl rfl
  · exact Or.inr rfl

/-! ## Theorems for claims C5, C10 -/

/-- C5 (counterexample): on `"User-agent: a*b\nDisallow: /x"` the code's
parser treats the block as applicable (the value `" a*b"` merely
*contains* `*`) and collects the disallow rule, while the parser the
claim describes (block applies only when the value *is* `*`) collects
nothing. -/
theorem parse_robots_ua_contains_star_cex :
    parse_robots_rules "User-agent: a*b\nDisallow: /x" = some ([], ["/x"]) ∧
    parse_robots_claimed "User-agent: a*b\nDisallow: /x" = some ([], []) := by
  constructor <;> decide

/-- C5 (amended): the line-by-line parser behaves exactly as the claim
says — comment and blank lines skipped, lines outside an applicable
block ignored, non-empty `Disallow` values and all `Allow` values
collected — except that a user-agent block applies exactly when the text
after the colon of its `User-agent:` line *contains* the character `*`
(not only when it equals `*`); a user-agent line without a colon makes
the parser raise, on which both sides agree. -/
theorem parse_robots_rules_eq_amended (txt : String) :
    parse_robots_rules txt = parse_robots_amended txt := by
  unfold parse_robots_rules parse_robots_amended
  exact processRobots_eq_collect (pySplitlines txt) false [] []

/-- C10 (counterexample): the body `"User-agent"` does not start with
`"404"`, yet `check_robots` on a status-404 response with that body does
not yield an Allowed/Disallowed verdict: the parsing loop raises an
uncaught `IndexError` on the colon-less user-agent line (modelled as
`none`). -/
theorem check_robots_colonless_ua_raises_cex :
    pyStartsWith (pyLower "User-agent") "404" = false ∧
    check_robots (Except.ok ⟨404, "User-agent", []⟩) "/" = none := by
  constructor <;> decide

/-- C10 (amended): on a successfully fetched robots.txt response the
verdict ignores the HTTP status entirely (and the headers); the result
is "robots.txt not found" exactly when the lowercased body starts with
"404"; and any other body is parsed as a normal rule set, yielding an
"Allowed"/"Disallowed" verdict provided the parsing loop does not raise
(which it does only on a user-agent line without a colon). -/
theorem check_robots_notfound_iff_body_404 (st st2 : Nat) (body decodedPath : String)
    (hdrs hdrs2 : List (String × String)) :
    (check_robots (Except.ok ⟨st, body, hdrs⟩) decodedPath =
       check_robots (Except.ok ⟨st2, body, hdrs2⟩) decodedPath) ∧
    (check_robots (Except.ok ⟨st, body, hdrs⟩) decodedPath = some "robots.txt not found" ↔
       pyStartsWith (pyLower body) "404" = true) ∧
    (pyStartsWith (pyLower body) "404" = false →
       parse_robots_rules body ≠ none →
       ∃ v, check_robots (Except.ok ⟨st, body, hdrs⟩) decodedPath = some v ∧
         (v = "Allowed" ∨ v = "Disallowed")) := by
  refine ⟨rfl, ?_, ?_⟩
  · by_cases h4 : pyStartsWith (pyLower body) "404"
    · simp [check_robots, h4]
    · simp only [check_robots, h4, if_false, Bool.false_eq_true, iff_false]
      rcases hp : parse_robots_rules body with _ | rules
      · simp
      · simp only [Option.some.injEq]
        rcases check_robots_verdict_cases rules.1 rules.2 decodedPath with hv | hv <;>
          simp [hv]
  · intro h4 hp
    rcases hparse : parse_robots_rules body with _ | rules
    · exact absurd hparse hp
    · refine ⟨check_robots_verdict rules.1 rules.2 decodedPath, ?_,
        check_robots_verdict_cases rules.1 rules.2 decodedPath⟩
      simp [check_robots, h4, hparse]

/-- C10 (witness): applied to a status-404 response carrying a normal
rule set: the status is ignored and a Disallowed/Allowed verdict is
produced. -/
theorem check_robots_notfound_iff_body_404_witness :
    ∃ v, check_robots (Except.ok ⟨404, "User-agent: *\nDisallow: /admin", []⟩) "/admin/x" =
        some v ∧ (v = "Allowed" ∨ v = "Disallowed") := by
  have h := (check_robots_notfound_iff_body_404 404 200
      "User-agent: *\nDisallow: /admin" "/admin/x" [] []).2.2 (by decide) (by decide)
  exact h

lemma enqueueLinks_subset (env : SpiderEnv) (visited : Finset String) :
    ∀ (ls : List String) (tv : Finset String), tv ⊆ enqueueLinks env visited tv ls := by
  intro ls
  induction ls with
  | nil => intro tv; exact Finset.Subset.refl tv
  | cons x xs ih =>
    intro tv
    unfold enqueueLinks
    simp only [List.foldl_cons]
    split
    · exact (Finset.subset_insert x tv).trans (ih (insert x tv))
    · exact ih tv

lemma mem_enqueueLinks (env : SpiderEnv) (visited : Finset String) :
    ∀ (ls : List String) (tv : Finset String) (l : String),
      l ∈ enqueueLinks env visited tv ls →
      l ∈ tv ∨ (l ∈ ls ∧ strip_www (env.netlocOf l) = env.baseNetloc ∧ l ∉ visited) := by
  intro ls
  induction ls with
  | nil => intro tv l h; exact Or.inl h
  | cons x xs ih =>
    intro tv l h
    unfold enqueueLinks at h
    simp only [List.foldl_cons] at h
    by_cases hc : strip_www (env.netlocOf x) = env.baseNetloc ∧ x ∉ visited ∧
        visited.card + tv.card < env.maxUrls
    · rw [if_pos hc] at h
      rcases ih (insert x tv) l h with hl | hl
      · rcases Finset.mem_insert.mp hl with rfl | hl
        · exact Or.inr ⟨List.mem_cons_self l xs, hc.1, hc.2.1⟩
        · exact Or.inl hl
      · exact Or.inr ⟨List.mem_cons_of_mem x hl.1, hl.2⟩
    · rw [if_neg hc] at h
      rcases ih tv l h with hl | hl
      · exact Or.inl hl
      · exact Or.inr ⟨List.mem_cons_of_mem x hl.1, hl.2⟩

lemma enqueueLinks_card (env : SpiderEnv) (visited : Finset String) :
    ∀ (ls : List String) (tv : Finset String),
      visited.card + tv.card ≤ env.maxUrls →
      visited.card + (enqueueLinks env visited tv ls).card ≤ env.maxUrls := by
  intro ls
  induction ls with
  | nil => intro tv h; exact h
  | cons x xs ih =>
    intro tv h
    unfold enqueueLinks
    simp only [List.foldl_cons]
    by_cases hc : strip_www (env.netlocOf x) = env.baseNetloc ∧ x ∉ visited ∧
        visited.card + tv.card < env.maxUrls
    · rw [if_pos hc]
      refine ih (insert x tv) ?_
      have hcard := Finset.card_insert_le x tv
      omega
    · rw [if_neg hc]
      exact ih tv h

lemma mem_enqueueLinks_of_room (env : SpiderEnv) (visited : Finset String) :
    ∀ (ls : List String) (tv : Finset String) (l : String),
      l ∈ ls → strip_www (env.netlocOf l) = env.baseNetloc → l ∉ visited →
      visited.card + tv.card + ls.length ≤ env.maxUrls →
      l ∈ enqueueLinks env visited tv ls := by
  intro ls
  induction ls with
  | nil => intro tv l h; exact absurd h (List.not_mem_nil l)
  | cons x xs ih =>
    intro tv l hmem hbase hnv hroom
    unfold enqueueLinks
    simp only [List.foldl_cons, List.length_cons] at hroom ⊢
    rcases List.mem_cons.mp hmem with rfl | hmem
    · have hc : strip_www (env.netlocOf l) = env.baseNetloc ∧ l ∉ visited ∧
          visited.card + tv.card < env.maxUrls := ⟨hbase, hnv, by omega⟩
      rw [if_pos hc]
      exact enqueueLinks_subset env visited xs (insert l tv) (Finset.mem_insert_self l tv)
    · by_cases hc : strip_www (env.netlocOf x) = env.baseNetloc ∧ x ∉ visited ∧
          visited.card + tv.card < env.maxUrls
      · rw [if_pos hc]
        refine ih (insert x tv) l hmem hbase hnv ?_
        have hcard := Finset.card_insert_le x tv
        omega
      · rw [if_neg hc]
        exact ih tv l hmem hbase hnv (by omega)

lemma spiderInv_init (env : SpiderEnv) (root : String) (hmax : 1 ≤ env.maxUrls) :
    SpiderInv env root (initState root) := by
  refine ⟨by simp [initState], by simpa [initState] using hmax, by simp [initState], ?_, ?_⟩
  · intro l hl
    simp only [initState, Finset.mem_singleton] at hl
    exact Or.inl hl
  · intro l hl
    simp [initState] at hl

lemma spiderInv_step (env : SpiderEnv) (root : String) {s t : SpiderState}
    (hinv : SpiderInv env root s) (hstep : SpiderStep env s t) :
    SpiderInv env root t := by
  obtain ⟨hdisj, hcards, hint, htv, hvis⟩ := hinv
  rcases hstep with ⟨u, hu, hguard⟩
  have hunv : u ∉ s.visited := fun hv => (Finset.disjoint_left.mp hdisj hv) hu
  have htvpos : 1 ≤ s.to_visit.card := Finset.card_pos.mpr ⟨u, hu⟩
  have hErase : (s.to_visit.erase u).card = s.to_visit.card - 1 := Finset.card_erase_of_mem hu
  have hInsert : (insert u s.visited).card = s.visited.card + 1 := Finset.card_insert_of_not_mem hunv
  have hdisj1 : Disjoint (insert u s.visited) (s.to_visit.erase u) := by
    rw [Finset.disjoint_left]
    intro a ha hae
    rcases Finset.mem_insert.mp ha with rfl | ha
    · exact (Finset.ne_of_mem_erase hae) rfl
    · exact (Finset.disjoint_left.mp hdisj ha) (Finset.mem_of_mem_erase hae)
  have hvis1 : ∀ l ∈ insert u s.visited, l = root ∨ strip_www (env.netlocOf l) = env.baseNetloc := by
    intro l hl
    rcases Finset.mem_insert.mp hl with rfl | hl
    · exact htv l hu
    · exact hvis l hl
  unfold stepResult
  rw [if_neg hunv]
  by_cases hfetch : env.fetchOk u
  · rw [if_pos hfetch]
    have hcards1 : (insert u s.visited).card + (s.to_visit.erase u).card ≤ env.maxUrls := by
      omega
    refine ⟨?_, ?_, ?_, ?_, hvis1⟩
    · rw [Finset.disjoint_left]
      intro a ha hae
      rcases mem_enqueueLinks env (insert u s.visited) (env.links u) (s.to_visit.erase u)
          a hae with h1 | h1
      · exact Finset.disjoint_left.mp hdisj1 ha h1
      · exact h1.2.2 ha
    · exact enqueueLinks_card env (insert u s.visited) (env.links u) (s.to_visit.erase u) hcards1
    · rw [hint, Finset.filter_insert]
      by_cases hexact : env.netlocOf u = env.exactNetloc
      · rw [if_pos hexact, if_pos ⟨hfetch, hexact⟩]
      · rw [if_neg hexact, if_neg (fun hc => hexact hc.2)]
    · intro l hl
      rcases mem_enqueueLinks env (insert u s.visited) (env.links u) (s.to_visit.erase u)
          l hl with h1 | h1
      · exact htv l (Finset.mem_of_mem_erase h1)
      · exact Or.inr h1.2.1
  · rw [if_neg hfetch]
    refine ⟨hdisj1,
      (by
        show (insert u s.visited).card + (s.to_visit.erase u).card ≤ env.maxUrls
        omega), ?_, ?_, hvis1⟩
    · rw [hint, Finset.filter_insert, if_neg (fun hc => by
        rw [hc.1] at hfetch
        exact hfetch rfl)]
    · intro l hl
      exact htv l (Finset.mem_of_mem_erase hl)

lemma spiderInv_reachable (env : SpiderEnv) (root : String) (hmax : 1 ≤ env.maxUrls)
    {s : SpiderState}
    (hreach : Relation.ReflTransGen (SpiderStep env) (initState root) s) :
    SpiderInv env root s := by
  induction hreach with
  | refl => exact spiderInv_init env root hmax
  | tail _ hstep ih => exact spiderInv_step env root ih hstep

lemma spiderMeasure_decreases (env : SpiderEnv) (root : String) {s t : SpiderState}
    (hinv : SpiderInv env root s) (hstep : SpiderStep env s t) :
    spiderMeasure env t < spiderMeasure env s := by
  obtain ⟨hdisj, hcards, -, -, -⟩ := hinv
  rcases hstep with ⟨u, hu, hguard⟩
  have hunv : u ∉ s.visited := fun hv => (Finset.disjoint_left.mp hdisj hv) hu
  have htvpos : 1 ≤ s.to_visit.card := Finset.card_pos.mpr ⟨u, hu⟩
  have hErase : (s.to_visit.erase u).card = s.to_visit.card - 1 := Finset.card_erase_of_mem hu
  have hInsert : (insert u s.visited).card = s.visited.card + 1 :=
    Finset.card_insert_of_not_mem hunv
  have hsub : env.maxUrls - s.visited.card = (env.maxUrls - (s.visited.card + 1)) + 1 := by
    omega
  have hexp : ((env.maxUrls - (s.visited.card + 1)) + 1) * (env.maxUrls + 1) =
      (env.maxUrls - (s.visited.card + 1)) * (env.maxUrls + 1) + (env.maxUrls + 1) := by
    ring
  by_cases hfetch : env.fetchOk u
  · have hres : stepResult env s u =
        ⟨insert u s.visited,
         enqueueLinks env (insert u s.visited) (s.to_visit.erase u) (env.links u),
         if env.netlocOf u = env.exactNetloc then insert u s.internal else s.internal⟩ := by
      unfold stepResult
      rw [if_neg hunv, if_pos hfetch]
    have henq := enqueueLinks_card env (insert u s.visited) (env.links u)
      (s.to_visit.erase u) (by omega)
    rw [hres]
    unfold spiderMeasure
    simp only
    rw [hInsert, hsub, hexp]
    omega
  · have hres : stepResult env s u = ⟨insert u s.visited, s.to_visit.erase u, s.internal⟩ := by
      unfold stepResult
      rw [if_neg hunv, if_neg hfetch]
    rw [hres]
    unfold spiderMeasure
    simp only
    rw [hInsert, hErase, hsub, hexp]
    omega

/-! ## Theorems for claims C6, C7, C8 -/

/-- C6: in every state the traversal loop can reach (for a page budget
≥ 1), `visited` and `to_visit` are disjoint and
`|visited| + |to_visit|` is bounded by `maxUrls` — in fact the bound
holds exactly, with no overshoot: each enqueue is individually guarded
by `len(visited) + len(to_visit) < max_urls`, and every pop/insert pair
preserves the sum. -/
theorem spider_frontier_invariant (env : SpiderEnv) (root : String) (hmax : 1 ≤ env.maxUrls)
    (s : SpiderState)
    (hreach : Relation.ReflTransGen (SpiderStep env) (initState root) s) :
    Disjoint s.visited s.to_visit ∧
      s.visited.card + s.to_visit.card ≤ env.maxUrls := by
  obtain ⟨h1, h2, -, -, -⟩ := spiderInv_reachable env root hmax hreach
  exact ⟨h1, h2⟩

/-- C6 (witness): the frontier invariant after one concrete step of the
demo crawl. -/
theorem spider_frontier_invariant_witness :
    Disjoint
      (stepResult demoEnv (initState "https://www.example.com") "https://www.example.com").visited
      (stepResult demoEnv (initState "https://www.example.com") "https://www.example.com").to_visit ∧
    (stepResult demoEnv (initState "https://www.example.com") "https://www.example.com").visited.card +
      (stepResult demoEnv (initState "https://www.example.com") "https://www.example.com").to_visit.card ≤
      demoEnv.maxUrls :=
  spider_frontier_invariant demoEnv "https://www.example.com" (by decide) _
    (Relation.ReflTransGen.single
      (SpiderStep.pop _ "https://www.example.com" (by decide) (by decide)))

/-- C7: in every reachable state, the internal result set is exactly the
visited pages that fetched successfully and whose host equals the exact
canonical host (so a traversed page whose exact host differs is
excluded); and a link enters `to_visit` through the enqueue loop only if
its www-stripped host equals the base host and it is not visited, with
admission guaranteed whenever additionally the budget leaves room for
the whole batch. -/
theorem spider_exact_host_reported (env : SpiderEnv) (root : String)
    (hmax : 1 ≤ env.maxUrls) (s : SpiderState)
    (hreach : Relation.ReflTransGen (SpiderStep env) (initState root) s) :
    (s.internal = s.visited.filter
      (fun u => env.fetchOk u = true ∧ env.netlocOf u = env.exactNetloc)) ∧
    (∀ u ∈ s.visited, env.fetchOk u = true → env.netlocOf u ≠ env.exactNetloc →
      u ∉ s.internal) ∧
    (∀ (visited tv : Finset String) (ls : List String) (l : String),
      l ∈ enqueueLinks env visited tv ls →
      l ∈ tv ∨ (l ∈ ls ∧ strip_www (env.netlocOf l) = env.baseNetloc ∧ l ∉ visited)) ∧
    (∀ (visited tv : Finset String) (ls : List String) (l : String),
      l ∈ ls → strip_www (env.netlocOf l) = env.baseNetloc → l ∉ visited →
      visited.card + tv.card + ls.length ≤ env.maxUrls →
      l ∈ enqueueLinks env visited tv ls) := by
  obtain ⟨-, -, hint, -, -⟩ := spiderInv_reachable env root hmax hreach
  refine ⟨hint, ?_, ?_, ?_⟩
  · intro u _ hf hne hmem
    rw [hint] at hmem
    exact hne (Finset.mem_filter.mp hmem).2.2
  · intro visited tv ls l h
    exact mem_enqueueLinks env visited ls tv l h
  · intro visited tv ls l h1 h2 h3 h4
    exact mem_enqueueLinks_of_room env visited ls tv l h1 h2 h3 h4

/-- C7 (witness): in the demo crawl started at `https://www.example.com`,
the discovered page `https://example.com/page` (www-stripped host
matches the base host, exact host differs) is traversed yet excluded
from the internal result set. -/
theorem spider_exact_host_reported_witness :
    "https://example.com/page" ∉
      (stepResult demoEnv
        (stepResult demoEnv (initState "https://www.example.com") "https://www.example.com")
        "https://example.com/page").internal := by
  have hreach : Relation.ReflTransGen (SpiderStep demoEnv)
      (initState "https://www.example.com")
      (stepResult demoEnv
        (stepResult demoEnv (initState "https://www.example.com") "https://www.example.com")
        "https://example.com/page") := by
    have h1 : SpiderStep demoEnv (initState "https://www.example.com")
        (stepResult demoEnv (initState "https://www.example.com") "https://www.example.com") :=
      SpiderStep.pop _ "https://www.example.com" (by decide) (by decide)
    have h2 : SpiderStep demoEnv
        (stepResult demoEnv (initState "https://www.example.com") "https://www.example.com")
        (stepResult demoEnv
          (stepResult demoEnv (initState "https://www.example.com") "https://www.example.com")
          "https://example.com/page") :=
      SpiderStep.pop _ "https://example.com/page" (by decide) (by decide)
    exact Relation.ReflTransGen.tail (Relation.ReflTransGen.single h1) h2
  exact (spider_exact_host_reported demoEnv "https://www.example.com" (by decide) _
      hreach).2.1 "https://example.com/page" (by decide) (by decide) (by decide)

/-- C8: for every environment — hence every finite, possibly cyclic link
graph — and every page budget ≥ 1, there is no infinite run of the
traversal loop from the initial state: the loop terminates in finitely
many steps. -/
theorem spider_terminates (env : SpiderEnv) (root : String) (hmax : 1 ≤ env.maxUrls) :
    ¬ ∃ f : ℕ → SpiderState, f 0 = initState root ∧
      ∀ n, SpiderStep env (f n) (f (n + 1)) := by
  rintro ⟨f, h0, hstep⟩
  have hreach : ∀ n, Relation.ReflTransGen (SpiderStep env) (initState root) (f n) := by
    intro n
    induction n with
    | zero => rw [h0]
    | succ n ih => exact Relation.ReflTransGen.tail ih (hstep n)
  have hdec : ∀ n, spiderMeasure env (f (n + 1)) < spiderMeasure env (f n) := fun n =>
    spiderMeasure_decreases env root (spiderInv_reachable env root hmax (hreach n)) (hstep n)
  have hkey : ∀ n, spiderMeasure env (f n) + n ≤ spiderMeasure env (f 0) := by
    intro n
    induction n with
    | zero => omega
    | succ n ih =>
      have := hdec n
      omega
  have := hkey (spiderMeasure env (f 0) + 1)
  omega

/-- C8 (witness): the demo crawl admits no infinite run. -/
theorem spider_terminates_witness :
    ¬ ∃ f : ℕ → SpiderState, f 0 = initState "https://www.example.com" ∧
      ∀ n, SpiderStep demoEnv (f n) (f (n + 1)) :=
  spider_terminates demoEnv "https://www.example.com" (by decide)

/-! ## Theorems for claim C2 -/

/-- C2 (counterexample): the success record's field names are exactly
URL, Status, Robots Policy, Title, Meta Description, H1, Wörter, CMS,
Broken Links — there is no "HTTP Status" field and no "WordCount" field
(the word count is emitted under the German name "Wörter"), contrary to
the claimed fixed field list. -/
theorem worker_success_fields_cex :
    (worker "example.com" (Except.ok ⟨200, "<html></html>", []⟩)
        ⟨"Indexable", "Allowed", "T", "D", "H", 5, "Unbekannt", "0"⟩).map Prod.fst =
      ["URL", "Status", "Robots Policy", "Title", "Meta Description", "H1", "Wörter", "CMS",
       "Broken Links"] ∧
    "HTTP Status" ∉
      (worker "example.com" (Except.ok ⟨200, "<html></html>", []⟩)
        ⟨"Indexable", "Allowed", "T", "D", "H", 5, "Unbekannt", "0"⟩).map Prod.fst ∧
    "WordCount" ∉
      (worker "example.com" (Except.ok ⟨200, "<html></html>", []⟩)
        ⟨"Indexable", "Allowed", "T", "D", "H", 5, "Unbekannt", "0"⟩).map Prod.fst := by
  refine ⟨rfl, by decide, by decide⟩

/-- C2 (amended): for every analyzed URL the worker emits a record with
exactly the fields URL, Status (indexability), Robots Policy, Title,
Meta Description, H1, Wörter (word count), CMS, Broken Links — the
fetched HTTP status code is discarded and never emitted — and when the
primary fetch fails after retries the record contains exactly URL and
Status, the latter holding the error marker, with no other field
populated. -/
theorem worker_record_shape (url : String) (e : Option String) (r : FetchSuccess)
    (a : AnalysisResults) :
    worker url (Except.ok r) a =
      [("URL", normalize_scheme url), ("Status", a.seoStatus), ("Robots Policy", a.robots),
       ("Title", a.title), ("Meta Description", a.metaDesc), ("H1", a.h1),
       ("Wörter", toString a.wc), ("CMS", a.cms), ("Broken Links", a.brokenLinks)] ∧
    worker url (Except.error e) a =
      [("URL", normalize_scheme url), ("Status", "Error: " ++ excText e)] := by
  exact ⟨rfl, rfl⟩

lemma special_ne_head (t : String) (ht : t ∈ specialTags) : (t == "head") = false := by
  simp only [specialTags, List.mem_cons, List.not_mem_nil, or_false] at ht
  rcases ht with rfl | rfl | rfl | rfl <;> decide

lemma hasHead_false_of_textOnly :
    ∀ cs : List Node, cs.all isTextNode = true → hasHead cs = false
  | [], _ => by simp only [hasHead]
  | .text s :: rest, h => by
    simp only [List.all_cons, Bool.and_eq_true] at h
    simp only [hasHead]
    exact hasHead_false_of_textOnly rest h.2
  | .elem t cs :: rest, h => by
    simp only [List.all_cons, isTextNode, Bool.false_and, Bool.false_eq_true] at h

lemma removeTags_mapSpecialText (f : String → List Node → String) :
    ∀ l : List Node,
      removeTagsList specialTags (mapSpecialText f l) = removeTagsList specialTags l
  | [] => by simp only [mapSpecialText]
  | .text s :: rest => by
    simp only [mapSpecialText, removeTagsList]
    rw [removeTags_mapSpecialText f rest]
  | .elem t cs :: rest => by
    by_cases ht : t ∈ specialTags
    · simp only [mapSpecialText, removeTagsList, if_pos ht]
      exact removeTags_mapSpecialText f rest
    · simp only [mapSpecialText, removeTagsList, if_neg ht]
      rw [removeTags_mapSpecialText f cs, removeTags_mapSpecialText f rest]

lemma hasHead_mapSpecialText (f : String → List Node → String) :
    ∀ l : List Node, specialsTextOnly l = true →
      hasHead (mapSpecialText f l) = hasHead l
  | [], _ => by simp only [mapSpecialText]
  | .text s :: rest, h => by
    simp only [specialsTextOnly] at h
    simp only [mapSpecialText, hasHead]
    exact hasHead_mapSpecialText f rest h
  | .elem t cs :: rest, h => by
    simp only [specialsTextOnly, Bool.and_eq_true] at h
    by_cases ht : t ∈ specialTags
    · rw [if_pos ht] at h
      simp only [mapSpecialText, if_pos ht, hasHead, special_ne_head t ht,
        hasHead_false_of_textOnly cs h.1, hasHead_mapSpecialText f rest h.2]
    · rw [if_neg ht] at h
      simp only [mapSpecialText, if_neg ht, hasHead,
        hasHead_mapSpecialText f cs h.1, hasHead_mapSpecialText f rest h.2]

lemma removeFirstHead_mapSpecialText (f : String → List Node → String) :
    ∀ l : List Node, specialsTextOnly l = true →
      removeFirstHead (mapSpecialText f l) = mapSpecialText f (removeFirstHead l)
  | [], _ => by simp only [mapSpecialText, removeFirstHead]
  | .text s :: rest, h => by
    simp only [specialsTextOnly] at h
    simp only [mapSpecialText, removeFirstHead]
    rw [removeFirstHead_mapSpecialText f rest h]
  | .elem t cs :: rest, h => by
    simp only [specialsTextOnly, Bool.and_eq_true] at h
    by_cases ht : t ∈ specialTags
    · rw [if_pos ht] at h
      have hth := special_ne_head t ht
      have hcs := hasHead_false_of_textOnly cs h.1
      simp only [mapSpecialText, if_pos ht, removeFirstHead, hth, hasHead, Bool.false_eq_true,
        if_false, hcs, removeFirstHead_mapSpecialText f rest h.2]
    · rw [if_neg ht] at h
      by_cases hth : t == "head"
      · simp only [mapSpecialText, if_neg ht, removeFirstHead, hth, if_true]
      · by_cases hcs : hasHead cs
        · simp only [mapSpecialText, if_neg ht, removeFirstHead, hth, Bool.false_eq_true,
            if_false, hasHead_mapSpecialText f cs h.1, hcs, if_true,
            removeFirstHead_mapSpecialText f cs h.1]
        · simp only [mapSpecialText, if_neg ht, removeFirstHead, hth, Bool.false_eq_true,
            if_false, hasHead_mapSpecialText f cs h.1, hcs,
            removeFirstHead_mapSpecialText f rest h.2]

lemma hasHead_mapFirstHead_true (g : List Node → List Node) :
    ∀ l : List Node, hasHead l = true → hasHead (mapFirstHead g l) = true
  | [], h => absurd h (by simp [hasHead])
  | .text s :: rest, h => by
    simp only [hasHead] at h
    simp only [mapFirstHead, hasHead]
    exact hasHead_mapFirstHead_true g rest h
  | .elem t cs :: rest, h => by
    by_cases hth : t == "head"
    · simp only [mapFirstHead, hth, if_true, hasHead, Bool.true_or]
    · by_cases hcs : hasHead cs
      · simp only [mapFirstHead, hth, Bool.false_eq_true, if_false, hcs, if_true, hasHead,
          hasHead_mapFirstHead_true g cs hcs, Bool.or_true, Bool.true_or]
      · have hrest : hasHead rest = true := by
          simp only [hasHead, hth, hcs, Bool.false_or] at h
          exact h
        simp only [mapFirstHead, hth, Bool.false_eq_true, if_false, hcs, hasHead,
          hasHead_mapFirstHead_true g rest hrest, Bool.or_true]

lemma removeFirstHead_mapFirstHead (g : List Node → List Node) :
    ∀ l : List Node, removeFirstHead (mapFirstHead g l) = removeFirstHead l
  | [] => by simp only [mapFirstHead]
  | .text s :: rest => by
    simp only [mapFirstHead, removeFirstHead]
    rw [removeFirstHead_mapFirstHead g rest]
  | .elem t cs :: rest => by
    by_cases hth : t == "head"
    · simp only [mapFirstHead, hth, if_true, removeFirstHead]
    · by_cases hcs : hasHead cs
      · simp only [mapFirstHead, hth, Bool.false_eq_true, if_false, hcs, if_true,
          removeFirstHead, hasHead_mapFirstHead_true g cs hcs,
          removeFirstHead_mapFirstHead g cs]
      · simp only [mapFirstHead, hth, Bool.false_eq_true, if_false, hcs, removeFirstHead,
          removeFirstHead_mapFirstHead g rest]

/-! ## Theorem for claim C9 -/

/-- C9: for every parsed document whose
script/style/noscript/template elements hold text (as a real HTML parse
produces), the reported word count is invariant under replacing the text
inside those elements by arbitrary other text (inserting or removing
script/style content), and likewise under replacing the content of the
head section by arbitrary content. -/
theorem word_count_script_style_head_invariant (f : String → List Node → String)
    (g : List Node → List Node) (doc : List Node)
    (hwf : specialsTextOnly doc = true) :
    word_count (mapSpecialText f doc) = word_count doc ∧
    word_count (mapFirstHead g doc) = word_count doc := by
  constructor
  · unfold word_count strip_html_for_wc
    rw [removeFirstHead_mapSpecialText f doc hwf,
      removeTags_mapSpecialText f (removeFirstHead doc)]
  · unfold word_count strip_html_for_wc
    rw [removeFirstHead_mapFirstHead g doc]

/-- C9 (witness): injecting replacement script/style text and replacement
head content into the demo document leaves its word count unchanged. -/
theorem word_count_script_style_head_invariant_witness :
    specialsTextOnly demoDoc = true ∧
    word_count (mapSpecialText (fun _ _ => "INJECTED SCRIPT TEXT with many extra words")
      demoDoc) = word_count demoDoc ∧
    word_count (mapFirstHead (fun _ => [Node.text "replacement head content"]) demoDoc) =
      word_count demoDoc := by
  have hwf : specialsTextOnly demoDoc = true := by
    simp [specialsTextOnly, demoDoc, specialTags, isTextNode]
  refine ⟨hwf, ?_, ?_⟩
  · exact (word_count_script_style_head_invariant
      (fun _ _ => "INJECTED SCRIPT TEXT with many extra words")
      (fun l => l) demoDoc hwf).1
  · exact (word_count_script_style_head_invariant (fun _ cs => "")
      (fun _ => [Node.text "replacement head content"]) demoDoc hwf).2

end SeoSnake
